import Mathlib

/-!
Verification of the chunked file-transfer protocol of `src/src/App.tsx`
(classes `FileSender` and `FileReceiver`, constant `CHUNK_SIZE`).

The sender is modelled as the pure trace of channel sends and progress
callbacks performed by `FileSender.send`; the receiver as a state machine
whose step function `handleData` is the body of the `'data'` listener
installed by `FileReceiver.setupListener`.  Byte payloads are lists of
naturals; JS numbers produced by `Math.round` are modelled exactly on the
rationals, with `none` standing for the non-finite value `Infinity` that
arises from division by zero.
-/

/-- Raw byte payloads (the contents of an `ArrayBuffer`). -/
abbrev Bytes := List Nat

/-- `const CHUNK_SIZE = 16 * 1024` from the source. -/
def CHUNK_SIZE : Nat := 16 * 1024

/-- The `FileMetadata` wire record
`{ type: 'metadata', fileName, fileType, fileSize, totalChunks }`. -/
structure FileMetadata where
  fileName : String
  fileType : String
  fileSize : Nat
  totalChunks : Nat
deriving DecidableEq

/-- The tagged union `FileMessage = FileMetadata | FileChunk | FileComplete`. -/
inductive FileMessage where
  | metadata (m : FileMetadata)
  | chunk (index : Nat) (data : Bytes)
  | complete
deriving DecidableEq

/-- What the `'data'` listener can be handed (its parameter has type
`unknown` in the source):  a well-formed `FileMessage`; a value such as
`null` on which reading `.type` throws (caught by the handler's
`try/catch`); or an object whose `type` tag matches none of the three
branches, which every branch silently skips. -/
inductive InboundData where
  | valid (msg : FileMessage)
  | malformed
  | unrecognized
deriving DecidableEq

/-- JS `Math.round (num / den)` computed exactly on naturals:
`floor (num/den + 1/2) = (2*num + den) / (2*den)`.  A zero denominator
makes the JS division produce `Infinity` (the numerators in the source
are positive at every call site), modelled as `none`. -/
def jsRound (num den : Nat) : Option Nat :=
  if den = 0 then none else some ((2 * num + den) / (2 * den))

/-- The sender's `File`: name, MIME type and content bytes
(`file.size` is `content.length`). -/
structure FileModel where
  name : String
  mime : String
  content : Bytes
deriving DecidableEq

/-- `Math.ceil(this.file.size / CHUNK_SIZE)`. -/
def totalChunksOf (size : Nat) : Nat := (size + CHUNK_SIZE - 1) / CHUNK_SIZE

/-- The bytes of `this.file.slice(i*CHUNK_SIZE, min((i+1)*CHUNK_SIZE, size))`. -/
def sliceChunk (content : Bytes) (i : Nat) : Bytes :=
  (content.drop (i * CHUNK_SIZE)).take CHUNK_SIZE

/-- One observable action of `FileSender.send`: a `connection.send(frame)`
or an `onProgress(p)` callback. -/
inductive SendEvent where
  | sendFrame (msg : FileMessage)
  | progress (p : Option Nat)
deriving DecidableEq

/-- The trace of `FileSender.send`: one metadata frame; then, for each
`i < totalChunks`, the chunk frame followed by
`onProgress(Math.round(((i+1)/totalChunks)*100))`; finally the complete
frame.  (The `setTimeout` pause after every 10th chunk does not emit an
observable event.) -/
def sendTrace (f : FileModel) : List SendEvent :=
  SendEvent.sendFrame
      (FileMessage.metadata
        ⟨f.name, f.mime, f.content.length, totalChunksOf f.content.length⟩)
    :: ((((List.range (totalChunksOf f.content.length)).map fun i =>
            [SendEvent.sendFrame (FileMessage.chunk i (sliceChunk f.content i)),
             SendEvent.progress
               (jsRound (100 * (i + 1)) (totalChunksOf f.content.length))]).flatten)
        ++ [SendEvent.sendFrame FileMessage.complete])

/-- Projection of a send event to the frame it puts on the channel. -/
def frameOf : SendEvent → Option FileMessage
  | SendEvent.sendFrame m => some m
  | SendEvent.progress _ => none

/-- Projection of a send event to the progress value it reports. -/
def progressOf : SendEvent → Option (Option Nat)
  | SendEvent.progress p => some p
  | SendEvent.sendFrame _ => none

/-- The frames `FileSender.send` hands to `connection.send`, in order. -/
def sentFrames (f : FileModel) : List FileMessage :=
  (sendTrace f).filterMap frameOf

/-- The values `FileSender.send` passes to `onProgress`, in order. -/
def sentProgress (f : FileModel) : List (Option Nat) :=
  (sendTrace f).filterMap progressOf

/-- Recognizer for chunk frames. -/
def isChunkMsg : FileMessage → Bool
  | FileMessage.chunk _ _ => true
  | _ => false

/-- The mutable fields of a `FileReceiver`: `metadata` (null between
transfers), `chunks` (a JS array that may contain holes, `none`), and
`receivedChunks`. -/
structure ReceiverState where
  metadata : Option FileMetadata
  chunks : List (Option Bytes)
  receivedChunks : Nat
deriving DecidableEq

/-- The receiver's initial (and post-`Complete`) state:
`metadata = null`, `chunks = []`, `receivedChunks = 0`. -/
def initState : ReceiverState := ⟨none, [], 0⟩

/-- JS sparse-array assignment `a[i] = v`: writes in place when
`i < a.length`, otherwise extends the array with holes up to index `i`. -/
def setSparse : List (Option Bytes) → Nat → Bytes → List (Option Bytes)
  | [], 0, v => [some v]
  | [], i + 1, v => none :: setSparse [] i v
  | _ :: t, 0, v => some v :: t
  | h :: t, i + 1, v => h :: setSparse t i v

/-- The UTF-8 bytes of the string `"undefined"`: a hole read from a JS
array yields `undefined`, which the `Blob` constructor converts to this
string (WebIDL union conversion to `USVString`). -/
def undefinedBytes : Bytes := [117, 110, 100, 101, 102, 105, 110, 101, 100]

/-- The bytes of `new Blob(this.chunks, ...)`: the concatenation of all
slots, holes contributing the bytes of `"undefined"`. -/
def blobJoin (chunks : List (Option Bytes)) : Bytes :=
  (chunks.map fun c => c.getD undefinedBytes).flatten

/-- One observable callback of the receiver. -/
inductive RecvEvent where
  | onStart
  | onProgress (p : Option Nat)
  | onComplete (payload : Bytes) (fileName fileType : String)
  | onError
deriving DecidableEq

/-- One execution of the `'data'` listener installed by
`FileReceiver.setupListener`, under the assumption that
`new Array(message.totalChunks)` succeeds (`totalChunks < 2^32`, the JS
array-length limit): the new state together with the callbacks invoked,
in order.  `handleDataJS` below drops that assumption and also models the
`RangeError` path of the allocation. -/
def handleData (s : ReceiverState) (d : InboundData) : ReceiverState × List RecvEvent :=
  match d with
  | InboundData.malformed => (s, [RecvEvent.onError])
  | InboundData.unrecognized => (s, [])
  | InboundData.valid msg =>
    match msg with
    | FileMessage.metadata m =>
        (⟨some m, List.replicate m.totalChunks none, 0⟩, [RecvEvent.onStart])
    | FileMessage.chunk i payload =>
        match s.metadata with
        | none => (s, [])
        | some m =>
            (⟨some m, setSparse s.chunks i payload, s.receivedChunks + 1⟩,
             [RecvEvent.onProgress (jsRound (100 * (s.receivedChunks + 1)) m.totalChunks)])
    | FileMessage.complete =>
        match s.metadata with
        | none => (s, [])
        | some m =>
            (initState, [RecvEvent.onComplete (blobJoin s.chunks) m.fileName m.fileType])

/-- Run the listener over a sequence of inbound deliveries, collecting
all callbacks in order. -/
def runFrames : ReceiverState → List InboundData → ReceiverState × List RecvEvent
  | s, [] => (s, [])
  | s, d :: rest =>
      ((runFrames (handleData s d).1 rest).1,
       (handleData s d).2 ++ (runFrames (handleData s d).1 rest).2)

/-- One execution of the `'data'` listener with the JS array-length limit
modelled: `new Array(len)` throws `RangeError` ("invalid array length")
for `len ≥ 2^32`, and the source assigns `this.metadata = message` on the
line before that allocation, so when the throw is caught by the handler's
`try/catch`, `metadata` has already been overwritten while `chunks` and
`receivedChunks` keep their previous values and `onError` fires.  On every
other input it behaves exactly like `handleData`. -/
def handleDataJS (s : ReceiverState) (d : InboundData) : ReceiverState × List RecvEvent :=
  match d with
  | InboundData.valid (FileMessage.metadata m) =>
      if m.totalChunks < 2 ^ 32 then
        (⟨some m, List.replicate m.totalChunks none, 0⟩, [RecvEvent.onStart])
      else
        (⟨some m, s.chunks, s.receivedChunks⟩, [RecvEvent.onError])
  | d => handleData s d

/-- Run the `handleDataJS` listener over a sequence of inbound deliveries,
collecting all callbacks in order. -/
def runFramesJS : ReceiverState → List InboundData → ReceiverState × List RecvEvent
  | s, [] => (s, [])
  | s, d :: rest =>
      ((runFramesJS (handleDataJS s d).1 rest).1,
       (handleDataJS s d).2 ++ (runFramesJS (handleDataJS s d).1 rest).2)

/-- The inbound delivery of one chunk frame for an (index, payload) pair. -/
def chunkMsg (p : Nat × Bytes) : InboundData :=
  InboundData.valid (FileMessage.chunk p.1 p.2)

/-- Pair the payloads of a list with consecutive indices starting at `k`. -/
def indexedFrom : Nat → List Bytes → List (Nat × Bytes)
  | _, [] => []
  | k, d :: rest => (k, d) :: indexedFrom (k + 1) rest

/-- Effect on the chunk array of storing a list of (index, payload) pairs. -/
def storeAll (l : List (Nat × Bytes)) (a : List (Option Bytes)) : List (Option Bytes) :=
  l.foldl (fun acc p => setSparse acc p.1 p.2) a

/-- Projection of a receiver event to the payload it completes with. -/
def recvCompleteOf : RecvEvent → Option Bytes
  | RecvEvent.onComplete payload _ _ => some payload
  | _ => none

/-- The payloads passed to `onComplete`, in order. -/
def completePayloads (evs : List RecvEvent) : List Bytes :=
  evs.filterMap recvCompleteOf

/-- Projection of a receiver event to the progress value it reports. -/
def recvProgressOf : RecvEvent → Option (Option Nat)
  | RecvEvent.onProgress p => some p
  | _ => none

/-- The values passed to the receiver's `onProgress`, in order. -/
def progressEvents (evs : List RecvEvent) : List (Option Nat) :=
  evs.filterMap recvProgressOf

/-- The finite values among a list of JS numbers. -/
def someVals (l : List (Option Nat)) : List Nat :=
  l.filterMap id

theorem sliceChunk_length (l : Bytes) (i : Nat) :
    (sliceChunk l i).length = min CHUNK_SIZE (l.length - i * CHUNK_SIZE) := by
  simp [sliceChunk, List.length_take, List.length_drop]

theorem totalChunksOf_succ (S : Nat) (h : 0 < S) :
    totalChunksOf S = totalChunksOf (S - CHUNK_SIZE) + 1 := by
  simp only [totalChunksOf, CHUNK_SIZE]
  omega

theorem filterMap_frameOf_blocks (c : Nat → FileMessage) (pr : Nat → Option Nat) :
    ∀ is : List Nat,
      ((is.map fun i => [SendEvent.sendFrame (c i), SendEvent.progress (pr i)]).flatten).filterMap frameOf
        = is.map c := by
  intro is
  induction is with
  | nil => rfl
  | cons a t ih =>
      simp only [List.map_cons, List.flatten_cons, List.filterMap_append]
      rw [ih]
      rfl

theorem filterMap_progressOf_blocks (c : Nat → FileMessage) (pr : Nat → Option Nat) :
    ∀ is : List Nat,
      ((is.map fun i => [SendEvent.sendFrame (c i), SendEvent.progress (pr i)]).flatten).filterMap progressOf
        = is.map pr := by
  intro is
  induction is with
  | nil => rfl
  | cons a t ih =>
      simp only [List.map_cons, List.flatten_cons, List.filterMap_append]
      rw [ih]
      rfl

theorem sentFrames_eq (f : FileModel) :
    sentFrames f
      = FileMessage.metadata
          ⟨f.name, f.mime, f.content.length, totalChunksOf f.content.length⟩
        :: (((List.range (totalChunksOf f.content.length)).map fun i =>
              FileMessage.chunk i (sliceChunk f.content i))
            ++ [FileMessage.complete]) := by
  show List.filterMap frameOf (_ :: _) = _
  rw [List.filterMap_cons]
  show FileMessage.metadata _ :: List.filterMap frameOf (_ ++ _) = _
  rw [List.filterMap_append, filterMap_frameOf_blocks]
  rfl

theorem sentProgress_eq (f : FileModel) :
    sentProgress f
      = (List.range (totalChunksOf f.content.length)).map fun i =>
          jsRound (100 * (i + 1)) (totalChunksOf f.content.length) := by
  show List.filterMap progressOf (_ :: _) = _
  rw [List.filterMap_cons]
  show List.filterMap progressOf (_ ++ _) = _
  rw [List.filterMap_append, filterMap_progressOf_blocks]
  simp [progressOf]

theorem join_chunks_aux :
    ∀ (n : Nat) (l : Bytes), l.length ≤ n →
      ((List.range (totalChunksOf l.length)).map (sliceChunk l)).flatten = l := by
  intro n
  induction n with
  | zero =>
      intro l hl
      have hnil : l = [] := by
        cases l with
        | nil => rfl
        | cons b t => simp at hl
      subst hnil
      rfl
  | succ n ih =>
      intro l hl
      cases l with
      | nil => rfl
      | cons b t =>
          have hdl : ((b :: t).drop CHUNK_SIZE).length = (b :: t).length - CHUNK_SIZE :=
            List.length_drop _ _
          have hsplit : totalChunksOf (b :: t).length
              = totalChunksOf ((b :: t).drop CHUNK_SIZE).length + 1 := by
            rw [hdl]
            exact totalChunksOf_succ _ (by simp)
          rw [hsplit, List.range_succ_eq_map, List.map_cons, List.map_map]
          have hfun : (sliceChunk (b :: t) ∘ Nat.succ) = sliceChunk ((b :: t).drop CHUNK_SIZE) := by
            funext i
            simp only [Function.comp_apply, sliceChunk, List.drop_drop, Nat.succ_mul]
            rw [Nat.add_comm (i * CHUNK_SIZE) CHUNK_SIZE]
          have hih : ((b :: t).drop CHUNK_SIZE).length ≤ n := by
            rw [hdl]
            simp only [List.length_cons] at hl ⊢
            simp only [CHUNK_SIZE]
            omega
          rw [hfun, List.flatten_cons, ih ((b :: t).drop CHUNK_SIZE) hih]
          have h0 : sliceChunk (b :: t) 0 = (b :: t).take CHUNK_SIZE := by
            simp [sliceChunk]
          rw [h0, List.take_append_drop]

theorem join_chunks (l : Bytes) :
    ((List.range (totalChunksOf l.length)).map (sliceChunk l)).flatten = l :=
  join_chunks_aux l.length l le_rfl

theorem chunk_lengths_sum (l : Bytes) :
    ((List.range (totalChunksOf l.length)).map fun i => (sliceChunk l i).length).sum
      = l.length := by
  have h := congrArg List.length (join_chunks l)
  rw [List.length_flatten, List.map_map] at h
  simpa [Function.comp] using h

theorem runFrames_append (s : ReceiverState) (xs ys : List InboundData) :
    runFrames s (xs ++ ys)
      = ((runFrames (runFrames s xs).1 ys).1,
         (runFrames s xs).2 ++ (runFrames (runFrames s xs).1 ys).2) := by
  induction xs generalizing s with
  | nil => simp [runFrames]
  | cons d rest ih => simp [runFrames, ih]

theorem length_indexedFrom : ∀ (k : Nat) (ps : List Bytes),
    (indexedFrom k ps).length = ps.length := by
  intro k ps
  induction ps generalizing k with
  | nil => rfl
  | cons d rest ih => simp [indexedFrom, ih]

theorem map_fst_indexedFrom : ∀ (k : Nat) (ps : List Bytes),
    (indexedFrom k ps).map Prod.fst = List.range' k ps.length := by
  intro k ps
  induction ps generalizing k with
  | nil => rfl
  | cons d rest ih => simp [indexedFrom, List.range'_succ, ih]

theorem indexedFrom_map_range' (g : Nat → Bytes) :
    ∀ (n k : Nat),
      indexedFrom k ((List.range' k n).map g) = (List.range' k n).map fun i => (i, g i) := by
  intro n
  induction n with
  | zero => intro k; rfl
  | succ n ih => intro k; simp [List.range'_succ, indexedFrom, ih]

theorem setSparse_fill : ∀ (done : List Bytes) (rest : Nat) (d : Bytes),
    setSparse (done.map some ++ List.replicate (rest + 1) none) done.length d
      = (done ++ [d]).map some ++ List.replicate rest none := by
  intro done
  induction done with
  | nil => intro rest d; simp [List.replicate_succ, setSparse]
  | cons a t ih => intro rest d; simp [setSparse, ih]

theorem map_range_succ_shift {α : Type} (f : Nat → α) (n : Nat) :
    (List.range (n + 1)).map f = f 0 :: (List.range n).map fun j => f (j + 1) := by
  rw [List.range_succ_eq_map, List.map_cons, List.map_map]
  rfl

theorem runFrames_chunkMsgs (m : FileMetadata) :
    ∀ (l : List (Nat × Bytes)) (a : List (Option Bytes)) (r : Nat),
      runFrames ⟨some m, a, r⟩ (l.map chunkMsg)
        = (⟨some m, storeAll l a, r + l.length⟩,
           (List.range l.length).map fun j =>
             RecvEvent.onProgress (jsRound (100 * (r + j + 1)) m.totalChunks)) := by
  intro l
  induction l with
  | nil => intro a r; simp [runFrames, storeAll]
  | cons p rest ih =>
      intro a r
      simp only [List.map_cons, runFrames, handleData, chunkMsg]
      rw [ih]
      simp only [List.length_cons]
      refine Prod.ext ?_ ?_
      · show (ReceiverState.mk _ _ _) = (ReceiverState.mk _ _ _)
        have h3 : r + 1 + rest.length = r + (rest.length + 1) := by omega
        simp [storeAll, h3]
      · show RecvEvent.onProgress _ :: _ = _
        rw [map_range_succ_shift fun j =>
          RecvEvent.onProgress (jsRound (100 * (r + j + 1)) m.totalChunks)]
        have harith : ∀ j : Nat, r + 1 + j + 1 = r + (j + 1) + 1 := by omega
        simp [harith]

theorem setSparse_at_length :
    ∀ (c : List (Option Bytes)) (x : Option Bytes) (t : List (Option Bytes)) (d : Bytes),
      setSparse (c ++ x :: t) c.length d = c ++ some d :: t := by
  intro c
  induction c with
  | nil => intro x t d; rfl
  | cons h c ih => intro x t d; simp [setSparse, ih]

theorem storeAll_fill :
    ∀ (pending : List Bytes) (c : List (Option Bytes)) (r : Nat),
      storeAll (indexedFrom c.length pending) (c ++ List.replicate (pending.length + r) none)
        = c ++ pending.map some ++ List.replicate r none := by
  intro pending
  induction pending with
  | nil => intro c r; simp [indexedFrom, storeAll]
  | cons d rest ih =>
      intro c r
      have hrep : List.replicate ((d :: rest).length + r) (none : Option Bytes)
          = none :: List.replicate (rest.length + r) none := by
        simp only [List.length_cons]
        rw [show rest.length + 1 + r = rest.length + r + 1 by omega, List.replicate_succ]
      rw [hrep]
      show storeAll ((c.length, d) :: indexedFrom (c.length + 1) rest) _ = _
      simp only [storeAll, List.foldl_cons]
      rw [show setSparse (c ++ none :: List.replicate (rest.length + r) none) c.length d
            = (c ++ [some d]) ++ List.replicate (rest.length + r) none by
          rw [setSparse_at_length]; simp]
      have hlen : c.length + 1 = (c ++ [some d]).length := by simp
      rw [hlen]
      have h2 := ih (c ++ [some d]) r
      simp only [storeAll] at h2
      rw [h2]
      simp

theorem run_transfer (m : FileMetadata) (ps : List Bytes) (hlen : ps.length = m.totalChunks) :
    runFrames initState
        (InboundData.valid (FileMessage.metadata m)
          :: ((indexedFrom 0 ps).map chunkMsg ++ [InboundData.valid FileMessage.complete]))
      = (initState,
         RecvEvent.onStart
           :: (((List.range ps.length).map fun j =>
                  RecvEvent.onProgress (jsRound (100 * (j + 1)) m.totalChunks))
               ++ [RecvEvent.onComplete ps.flatten m.fileName m.fileType])) := by
  have hstep : runFrames initState
      (InboundData.valid (FileMessage.metadata m)
        :: ((indexedFrom 0 ps).map chunkMsg ++ [InboundData.valid FileMessage.complete]))
      = ((runFrames ⟨some m, List.replicate m.totalChunks none, 0⟩
            ((indexedFrom 0 ps).map chunkMsg ++ [InboundData.valid FileMessage.complete])).1,
         RecvEvent.onStart
           :: (runFrames ⟨some m, List.replicate m.totalChunks none, 0⟩
                ((indexedFrom 0 ps).map chunkMsg ++ [InboundData.valid FileMessage.complete])).2) := by
    simp [runFrames, handleData, initState]
  rw [hstep, runFrames_append]
  have hfill : storeAll (indexedFrom 0 ps) (List.replicate m.totalChunks none)
      = ps.map some := by
    have h := storeAll_fill ps ([] : List (Option Bytes)) 0
    simp only [List.length_nil, List.nil_append, Nat.add_zero, List.replicate_zero,
      List.append_nil] at h
    rw [← hlen]
    exact h
  rw [runFrames_chunkMsgs m (indexedFrom 0 ps) (List.replicate m.totalChunks none) 0]
  simp only [hfill, length_indexedFrom]
  have hblob : blobJoin (ps.map some) = ps.flatten := by
    simp only [blobJoin, List.map_map]
    have hcomp : ((fun c : Option Bytes => c.getD undefinedBytes) ∘ some) = id := by
      funext x
      rfl
    rw [hcomp, List.map_id]
  simp [runFrames, handleData, hblob]

theorem setSparse_comm :
    ∀ (i : Nat) (j : Nat) (a : List (Option Bytes)) (v w : Bytes), i ≠ j →
      setSparse (setSparse a i v) j w = setSparse (setSparse a j w) i v := by
  intro i
  induction i with
  | zero =>
      intro j a v w hij
      cases j with
      | zero => exact absurd rfl hij
      | succ j =>
          cases a with
          | nil => rfl
          | cons h t => rfl
  | succ i ih =>
      intro j a v w hij
      cases j with
      | zero =>
          cases a with
          | nil => rfl
          | cons h t => rfl
      | succ j =>
          cases a with
          | nil =>
              show none :: setSparse (setSparse [] i v) j w = none :: setSparse (setSparse [] j w) i v
              rw [ih j [] v w (by omega)]
          | cons h t =>
              show h :: setSparse (setSparse t i v) j w = h :: setSparse (setSparse t j w) i v
              rw [ih j t v w (by omega)]

theorem getD_setSparse :
    ∀ (i : Nat) (a : List (Option Bytes)) (v : Bytes),
      (setSparse a i v).getD i none = some v := by
  intro i
  induction i with
  | zero =>
      intro a v
      cases a with
      | nil => rfl
      | cons h t => rfl
  | succ i ih =>
      intro a v
      cases a with
      | nil =>
          show (none :: setSparse [] i v).getD (i + 1) none = some v
          rw [List.getD_cons_succ]
          exact ih [] v
      | cons h t =>
          show (h :: setSparse t i v).getD (i + 1) none = some v
          rw [List.getD_cons_succ]
          exact ih t v

theorem storeAll_perm (l l' : List (Nat × Bytes)) (hperm : l.Perm l')
    (hnd : (l.map Prod.fst).Nodup) (a : List (Option Bytes)) :
    storeAll l a = storeAll l' a := by
  refine hperm.foldl_eq' ?_ a
  intro x hx y hy z
  by_cases hxy : x.1 = y.1
  · have : x = y := List.inj_on_of_nodup_map hnd hx hy hxy
    subst this
    rfl
  · exact setSparse_comm x.1 y.1 z x.2 y.2 hxy

theorem filterMap_some_eq_map {α β : Type} (e : α → β) (l : List α) :
    (l.filterMap fun a => some (e a)) = l.map e := by
  induction l with
  | nil => rfl
  | cons a t ih => simp [List.filterMap_cons, ih]

theorem filterMap_none_eq_nil {α β : Type} (l : List α) :
    (l.filterMap fun _ => (none : Option β)) = [] := by
  induction l with
  | nil => rfl
  | cons a t ih => simp [List.filterMap_cons, ih]

theorem someVals_map_some (v : Nat → Nat) (l : List Nat) :
    someVals (l.map fun i => some (v i)) = l.map v := by
  rw [someVals, List.filterMap_map]
  exact filterMap_some_eq_map v l

theorem progressEvents_map_onProgress (e : Nat → Option Nat) (l : List Nat) :
    progressEvents (l.map fun j => RecvEvent.onProgress (e j)) = l.map e := by
  rw [progressEvents, List.filterMap_map]
  have : (recvProgressOf ∘ fun j => RecvEvent.onProgress (e j)) = fun j => some (e j) := by
    funext j
    rfl
  rw [this]
  exact filterMap_some_eq_map e l

theorem completePayloads_map_onProgress (e : Nat → Option Nat) (l : List Nat) :
    completePayloads (l.map fun j => RecvEvent.onProgress (e j)) = [] := by
  rw [completePayloads, List.filterMap_map]
  exact filterMap_none_eq_nil l

theorem jsRound_le_100 (n t : Nat) (hn : 0 < n) (hnt : n ≤ t) :
    jsRound (100 * n) t = some ((2 * (100 * n) + t) / (2 * t))
      ∧ (2 * (100 * n) + t) / (2 * t) ≤ 100 := by
  have ht : 0 < t := lt_of_lt_of_le hn hnt
  constructor
  · simp [jsRound, Nat.pos_iff_ne_zero.mp ht]
  · have hlt : (2 * (100 * n) + t) / (2 * t) < 101 := by
      rw [Nat.div_lt_iff_lt_mul (by omega)]
      omega
    omega

theorem jsRound_total_eq_100 (t : Nat) (ht : 0 < t) :
    jsRound (100 * t) t = some 100 := by
  have hne : t ≠ 0 := Nat.pos_iff_ne_zero.mp ht
  simp only [jsRound, hne, if_false]
  congr 1
  have hnum : 2 * (100 * t) + t = t + (2 * t) * 100 := by ring
  rw [hnum, Nat.add_mul_div_left _ _ (by omega), Nat.div_eq_of_lt (by omega)]

theorem jsRound_mono (a b t : Nat) (hab : a ≤ b) :
    (2 * (100 * a) + t) / (2 * t) ≤ (2 * (100 * b) + t) / (2 * t) :=
  Nat.div_le_div_right (by omega)

theorem run_pairs (m : FileMetadata) (q : List (Nat × Bytes)) :
    runFrames initState
        (InboundData.valid (FileMessage.metadata m)
          :: (q.map chunkMsg ++ [InboundData.valid FileMessage.complete]))
      = (initState,
         RecvEvent.onStart
           :: (((List.range q.length).map fun j =>
                  RecvEvent.onProgress (jsRound (100 * (j + 1)) m.totalChunks))
               ++ [RecvEvent.onComplete
                     (blobJoin (storeAll q (List.replicate m.totalChunks none)))
                     m.fileName m.fileType])) := by
  have hstep : runFrames initState
      (InboundData.valid (FileMessage.metadata m)
        :: (q.map chunkMsg ++ [InboundData.valid FileMessage.complete]))
      = ((runFrames ⟨some m, List.replicate m.totalChunks none, 0⟩
            (q.map chunkMsg ++ [InboundData.valid FileMessage.complete])).1,
         RecvEvent.onStart
           :: (runFrames ⟨some m, List.replicate m.totalChunks none, 0⟩
                (q.map chunkMsg ++ [InboundData.valid FileMessage.complete])).2) := by
    simp [runFrames, handleData, initState]
  rw [hstep, runFrames_append]
  rw [runFrames_chunkMsgs m q (List.replicate m.totalChunks none) 0]
  simp [runFrames, handleData]

theorem completePayloads_trace (n : Nat) (e : Nat → Option Nat) (payload : Bytes)
    (nm tp : String) :
    completePayloads (RecvEvent.onStart
        :: (((List.range n).map fun j => RecvEvent.onProgress (e j))
            ++ [RecvEvent.onComplete payload nm tp])) = [payload] := by
  simp only [completePayloads, List.filterMap_cons, List.filterMap_append, List.filterMap_map]
  have h1 : (recvCompleteOf ∘ fun j => RecvEvent.onProgress (e j)) = fun _ => (none : Option Bytes) := by
    funext j
    rfl
  rw [h1, filterMap_none_eq_nil]
  rfl

theorem progressEvents_trace (n : Nat) (e : Nat → Option Nat) (payload : Bytes)
    (nm tp : String) :
    progressEvents (RecvEvent.onStart
        :: (((List.range n).map fun j => RecvEvent.onProgress (e j))
            ++ [RecvEvent.onComplete payload nm tp])) = (List.range n).map e := by
  simp only [progressEvents, List.filterMap_cons, List.filterMap_append, List.filterMap_map]
  have h1 : (recvProgressOf ∘ fun j => RecvEvent.onProgress (e j)) = fun j => some (e j) := by
    funext j
    rfl
  rw [h1, filterMap_some_eq_map]
  simp [recvProgressOf]

theorem sentFrames_receiver_run (f : FileModel) :
    runFrames initState ((sentFrames f).map InboundData.valid)
      = (initState,
         RecvEvent.onStart
           :: (((List.range (totalChunksOf f.content.length)).map fun j =>
                  RecvEvent.onProgress
                    (jsRound (100 * (j + 1)) (totalChunksOf f.content.length)))
               ++ [RecvEvent.onComplete f.content f.name f.mime])) := by
  have hmsgs : (sentFrames f).map InboundData.valid
      = InboundData.valid (FileMessage.metadata
            ⟨f.name, f.mime, f.content.length, totalChunksOf f.content.length⟩)
        :: ((indexedFrom 0
              ((List.range (totalChunksOf f.content.length)).map (sliceChunk f.content))).map
                chunkMsg
            ++ [InboundData.valid FileMessage.complete]) := by
    rw [sentFrames_eq]
    simp only [List.map_cons, List.map_append, List.map_map]
    rw [List.range_eq_range', indexedFrom_map_range' (sliceChunk f.content)
      (totalChunksOf f.content.length) 0, List.map_map]
    rfl
  rw [hmsgs]
  have hps : ((List.range (totalChunksOf f.content.length)).map (sliceChunk f.content)).length
      = (FileMetadata.mk f.name f.mime f.content.length (totalChunksOf f.content.length)).totalChunks := by
    simp
  rw [run_transfer ⟨f.name, f.mime, f.content.length, totalChunksOf f.content.length⟩ _ hps]
  rw [join_chunks]
  simp

theorem progressList_facts (t : Nat) :
    List.Pairwise (· ≤ ·) (someVals ((List.range t).map fun i => jsRound (100 * (i + 1)) t))
      ∧ (0 < t →
          (someVals ((List.range t).map fun i => jsRound (100 * (i + 1)) t)).getLast?
            = some 100) := by
  cases t with
  | zero =>
      constructor
      · simp [someVals]
      · intro h
        exact absurd h (lt_irrefl 0)
  | succ s =>
      have hval : ∀ l : List Nat,
          someVals (l.map fun i => jsRound (100 * (i + 1)) (s + 1))
            = l.map fun i => (2 * (100 * (i + 1)) + (s + 1)) / (2 * (s + 1)) := by
        intro l
        have hfn : (fun i => jsRound (100 * (i + 1)) (s + 1))
            = fun i => some ((2 * (100 * (i + 1)) + (s + 1)) / (2 * (s + 1))) := by
          funext i
          simp [jsRound]
        rw [hfn, someVals_map_some]
      constructor
      · rw [hval, List.pairwise_map]
        refine (List.pairwise_lt_range (s + 1)).imp ?_
        intro a b hab
        exact jsRound_mono (a + 1) (b + 1) (s + 1) (by omega)
      · intro h
        rw [hval, List.range_succ, List.map_append]
        simp only [List.map_cons, List.map_nil]
        rw [List.getLast?_concat]
        have h100 := jsRound_total_eq_100 (s + 1) (by omega)
        simp only [jsRound, Nat.succ_ne_zero, if_false, Option.some.injEq] at h100
        rw [show 100 * (s + 1) = 100 * (s + 1 - 1 + 1) from by omega] at h100
        simp only [Nat.add_sub_cancel] at h100
        rw [h100]

theorem sentFrames_filter_chunks (f : FileModel) :
    (sentFrames f).filter isChunkMsg
      = (List.range (totalChunksOf f.content.length)).map fun i =>
          FileMessage.chunk i (sliceChunk f.content i) := by
  rw [sentFrames_eq]
  simp only [List.filter_cons, List.filter_append, List.filter_map]
  have h1 : isChunkMsg (FileMessage.metadata
      ⟨f.name, f.mime, f.content.length, totalChunksOf f.content.length⟩) = false := rfl
  have h2 : isChunkMsg FileMessage.complete = false := rfl
  have h3 : (isChunkMsg ∘ fun i => FileMessage.chunk i (sliceChunk f.content i))
      = fun _ => true := by
    funext i
    rfl
  simp [h1, h2, h3]

/-- Claim C1: for every file of size `S`, `FileSender.send` emits exactly one
`Metadata` frame carrying the file's name, MIME type, size `S` and
`totalChunks = ceil(S / CHUNK_SIZE)` (the two arithmetic conjuncts pin
`totalChunksOf S` to that ceiling), then exactly `totalChunks` `Chunk`
frames with ascending indices `0..totalChunks-1` whose payloads are the
corresponding slices — every chunk except the last of length exactly
`CHUNK_SIZE`, the last of length `S - CHUNK_SIZE*(totalChunks-1)`, the
lengths summing to `S` — and finally exactly one `Complete` frame. -/
theorem C1_sender_frame_sequence (f : FileModel) :
    sentFrames f
      = FileMessage.metadata
          ⟨f.name, f.mime, f.content.length, totalChunksOf f.content.length⟩
        :: (((List.range (totalChunksOf f.content.length)).map fun i =>
              FileMessage.chunk i (sliceChunk f.content i))
            ++ [FileMessage.complete])
    ∧ f.content.length ≤ CHUNK_SIZE * totalChunksOf f.content.length
    ∧ CHUNK_SIZE * totalChunksOf f.content.length < f.content.length + CHUNK_SIZE
    ∧ (∀ i, i + 1 < totalChunksOf f.content.length →
        (sliceChunk f.content i).length = CHUNK_SIZE)
    ∧ (0 < totalChunksOf f.content.length →
        (sliceChunk f.content (totalChunksOf f.content.length - 1)).length
          = f.content.length - CHUNK_SIZE * (totalChunksOf f.content.length - 1))
    ∧ ((List.range (totalChunksOf f.content.length)).map fun i =>
          (sliceChunk f.content i).length).sum = f.content.length := by
  refine ⟨sentFrames_eq f, ?_, ?_, ?_, ?_, chunk_lengths_sum f.content⟩
  · simp only [totalChunksOf, CHUNK_SIZE]
    omega
  · simp only [totalChunksOf, CHUNK_SIZE]
    omega
  · intro i hi
    rw [sliceChunk_length]
    simp only [totalChunksOf, CHUNK_SIZE] at hi ⊢
    omega
  · intro h0
    rw [sliceChunk_length]
    simp only [totalChunksOf, CHUNK_SIZE] at h0 ⊢
    omega

/-- Concrete instance of C1 on a three-byte file (one chunk), discharging
the hypotheses of the last-chunk-length conjunct. -/
theorem C1_witness :
    sentFrames ⟨"a", "b", [0, 1, 2]⟩
      = [FileMessage.metadata ⟨"a", "b", 3, 1⟩,
         FileMessage.chunk 0 [0, 1, 2], FileMessage.complete]
    ∧ (sliceChunk [0, 1, 2] 0).length = 3 - CHUNK_SIZE * 0 := by
  have h := C1_sender_frame_sequence ⟨"a", "b", [0, 1, 2]⟩
  exact ⟨h.1.trans (by decide), h.2.2.2.2.1 (by decide)⟩

/-- Claim C2: a `Metadata` frame followed by its `N` chunk frames delivered
in index order `0..N-1` and a `Complete` frame makes the receiver invoke
`onComplete` exactly once, with the concatenation of the chunk payloads in
index order and the recorded name and MIME type, the payload length
equalling the declared `fileSize`; afterwards the receiver is back in
`Idle` (`initState`). -/
theorem C2_receiver_reassembly (m : FileMetadata) (ps : List Bytes)
    (hlen : ps.length = m.totalChunks)
    (hsize : (ps.map List.length).sum = m.fileSize) :
    runFrames initState
        (InboundData.valid (FileMessage.metadata m)
          :: ((indexedFrom 0 ps).map chunkMsg ++ [InboundData.valid FileMessage.complete]))
      = (initState,
         RecvEvent.onStart
           :: (((List.range ps.length).map fun j =>
                  RecvEvent.onProgress (jsRound (100 * (j + 1)) m.totalChunks))
               ++ [RecvEvent.onComplete ps.flatten m.fileName m.fileType]))
    ∧ ps.flatten.length = m.fileSize := by
  refine ⟨run_transfer m ps hlen, ?_⟩
  rw [List.length_flatten]
  exact hsize

/-- Concrete instance of C2: a two-chunk transfer of `[1] , [2]` completes
with payload `[1, 2]` of the declared size `2`. -/
theorem C2_witness :
    runFrames initState
        (InboundData.valid (FileMessage.metadata ⟨"f", "t", 2, 2⟩)
          :: ((indexedFrom 0 [[1], [2]]).map chunkMsg
              ++ [InboundData.valid FileMessage.complete]))
      = (initState,
         RecvEvent.onStart
           :: (((List.range 2).map fun j => RecvEvent.onProgress (jsRound (100 * (j + 1)) 2))
               ++ [RecvEvent.onComplete [1, 2] "f" "t"]))
    ∧ ([1, 2] : Bytes).length = 2 := by
  have h := C2_receiver_reassembly ⟨"f", "t", 2, 2⟩ [[1], [2]] (by decide) (by decide)
  exact ⟨h.1, h.2⟩

/-- Claim C3: delivering the same chunk set in any permuted order followed
by `Complete` yields a reassembled payload identical to the ascending-order
delivery. -/
theorem C3_reorder_tolerance (m : FileMetadata) (ps : List Bytes)
    (l : List (Nat × Bytes))
    (_hlen : ps.length = m.totalChunks)
    (hperm : l.Perm (indexedFrom 0 ps)) :
    completePayloads (runFrames initState
        (InboundData.valid (FileMessage.metadata m)
          :: (l.map chunkMsg ++ [InboundData.valid FileMessage.complete]))).2
      = completePayloads (runFrames initState
          (InboundData.valid (FileMessage.metadata m)
            :: ((indexedFrom 0 ps).map chunkMsg
                ++ [InboundData.valid FileMessage.complete]))).2 := by
  have hnodA : ((indexedFrom 0 ps).map Prod.fst).Nodup := by
    rw [map_fst_indexedFrom]
    exact List.nodup_range' _ _
  have hnd : (l.map Prod.fst).Nodup := ((hperm.map Prod.fst).symm).nodup hnodA
  have hstore : storeAll l (List.replicate m.totalChunks none)
      = storeAll (indexedFrom 0 ps) (List.replicate m.totalChunks none) :=
    storeAll_perm l (indexedFrom 0 ps) hperm hnd _
  rw [run_pairs m l, run_pairs m (indexedFrom 0 ps)]
  show completePayloads (RecvEvent.onStart :: _) = completePayloads (RecvEvent.onStart :: _)
  rw [completePayloads_trace, completePayloads_trace, hstore]

/-- Concrete instance of C3: delivering the chunks `[(1,[2]), (0,[1])]` in
reversed index order reassembles to the same payload as ascending order. -/
theorem C3_witness :
    completePayloads (runFrames initState
        (InboundData.valid (FileMessage.metadata ⟨"f", "t", 2, 2⟩)
          :: ([(1, [2]), (0, [1])].map chunkMsg
              ++ [InboundData.valid FileMessage.complete]))).2
      = completePayloads (runFrames initState
          (InboundData.valid (FileMessage.metadata ⟨"f", "t", 2, 2⟩)
            :: ((indexedFrom 0 [[1], [2]]).map chunkMsg
                ++ [InboundData.valid FileMessage.complete]))).2 :=
  C3_reorder_tolerance ⟨"f", "t", 2, 2⟩ [[1], [2]] [(1, [2]), (0, [1])]
    (by decide) (List.Perm.swap _ _ _)

/-- Claim C4: the sender's `onProgress` values are exactly
`round(((i+1)/totalChunks)*100)` for `i = 0..totalChunks-1` (hence one
invocation per chunk frame emitted, stated as the count equality with the
chunk frames), the finite value sequence is non-decreasing, and when any
chunk is emitted (nonempty file) the final value is exactly `100`;
likewise the receiver's `onProgress` sequence over a completed receive of
those frames equals the sender's, is non-decreasing, and ends at `100`. -/
theorem C4_progress_monotone_final (f : FileModel) :
    sentProgress f
      = ((List.range (totalChunksOf f.content.length)).map fun i =>
          jsRound (100 * (i + 1)) (totalChunksOf f.content.length))
    ∧ (sentProgress f).length = ((sentFrames f).filter isChunkMsg).length
    ∧ List.Pairwise (· ≤ ·) (someVals (sentProgress f))
    ∧ (f.content ≠ [] → (someVals (sentProgress f)).getLast? = some 100)
    ∧ progressEvents (runFrames initState ((sentFrames f).map InboundData.valid)).2
        = sentProgress f
    ∧ List.Pairwise (· ≤ ·)
        (someVals (progressEvents
          (runFrames initState ((sentFrames f).map InboundData.valid)).2))
    ∧ (f.content ≠ [] →
        (someVals (progressEvents
          (runFrames initState ((sentFrames f).map InboundData.valid)).2)).getLast?
          = some 100) := by
  have hpos : f.content ≠ [] → 0 < totalChunksOf f.content.length := by
    intro hne
    have h1 : 0 < f.content.length := List.length_pos.mpr hne
    simp only [totalChunksOf, CHUNK_SIZE]
    omega
  have h5 : progressEvents (runFrames initState ((sentFrames f).map InboundData.valid)).2
      = sentProgress f := by
    rw [sentFrames_receiver_run]
    show progressEvents (RecvEvent.onStart :: _) = _
    rw [progressEvents_trace, sentProgress_eq]
  refine ⟨sentProgress_eq f, ?_, ?_, ?_, h5, ?_, ?_⟩
  · rw [sentProgress_eq, sentFrames_filter_chunks]
    simp
  · rw [sentProgress_eq]
    exact (progressList_facts _).1
  · intro hne
    rw [sentProgress_eq]
    exact (progressList_facts _).2 (hpos hne)
  · rw [h5, sentProgress_eq]
    exact (progressList_facts _).1
  · intro hne
    rw [h5, sentProgress_eq]
    exact (progressList_facts _).2 (hpos hne)

/-- Concrete instance of C4 on a two-byte file (one chunk): the last
progress value emitted on each side is exactly `100`. -/
theorem C4_witness :
    (someVals (sentProgress ⟨"a", "b", [1, 2]⟩)).getLast? = some 100
    ∧ (someVals (progressEvents
        (runFrames initState
          ((sentFrames ⟨"a", "b", [1, 2]⟩).map InboundData.valid)).2)).getLast?
        = some 100 := by
  have h := C4_progress_monotone_final ⟨"a", "b", [1, 2]⟩
  exact ⟨h.2.2.2.1 (by decide), h.2.2.2.2.2.2 (by decide)⟩

/-- Claim C6: sending a zero-byte file computes `totalChunks = 0` and emits
exactly one `Metadata` frame immediately followed by one `Complete` frame
with no `Chunk` frames in between; the receiver then invokes `onComplete`
with an empty payload (and returns to `Idle`). -/
theorem C6_zero_byte_file (name mime : String) :
    sentFrames ⟨name, mime, []⟩
      = [FileMessage.metadata ⟨name, mime, 0, 0⟩, FileMessage.complete]
    ∧ totalChunksOf 0 = 0
    ∧ runFrames initState ((sentFrames ⟨name, mime, []⟩).map InboundData.valid)
      = (initState, [RecvEvent.onStart, RecvEvent.onComplete [] name mime]) := by
  have ht : totalChunksOf 0 = 0 := by decide
  have h1 : sentFrames ⟨name, mime, []⟩
      = [FileMessage.metadata ⟨name, mime, 0, 0⟩, FileMessage.complete] := by
    rw [sentFrames_eq]
    simp [ht]
  refine ⟨h1, ht, ?_⟩
  rw [h1]
  simp [runFrames, handleData, initState, blobJoin]

/-- Counterexample to claim C5 as stated: within one transfer declaring
`totalChunks = 1`, delivering the chunk with index `0` twice makes the
second accepted chunk invoke `onProgress` with
`round(2/1*100) = 200`, which lies outside `0..100`. -/
theorem C5_counterexample :
    progressEvents (runFrames initState
        [InboundData.valid (FileMessage.metadata ⟨"a", "b", 1, 1⟩),
         InboundData.valid (FileMessage.chunk 0 [7]),
         InboundData.valid (FileMessage.chunk 0 [7])]).2
      = [some 100, some 200]
    ∧ ¬ (200 : Nat) ≤ 100 := by
  constructor
  · decide
  · decide

/-- Claim C5, amended: every chunk frame accepted while `Collecting`
(`metadata` set) invokes `onProgress` exactly once with
`percent = round(received_count/total_chunks*100)`; the value lies in
`0..100` whenever `received_count ≤ total_chunks` (in particular
throughout any conforming transfer), but duplicate or out-of-range chunks
can drive `received_count` above `total_chunks` and the value above 100. -/
theorem C5_amended_progress (s : ReceiverState) (m : FileMetadata) (i : Nat) (d : Bytes)
    (hm : s.metadata = some m) :
    handleData s (InboundData.valid (FileMessage.chunk i d))
      = (⟨some m, setSparse s.chunks i d, s.receivedChunks + 1⟩,
         [RecvEvent.onProgress (jsRound (100 * (s.receivedChunks + 1)) m.totalChunks)])
    ∧ (s.receivedChunks + 1 ≤ m.totalChunks →
        jsRound (100 * (s.receivedChunks + 1)) m.totalChunks
          = some ((2 * (100 * (s.receivedChunks + 1)) + m.totalChunks)
              / (2 * m.totalChunks))
        ∧ (2 * (100 * (s.receivedChunks + 1)) + m.totalChunks)
              / (2 * m.totalChunks) ≤ 100) := by
  refine ⟨?_, fun h => jsRound_le_100 (s.receivedChunks + 1) m.totalChunks (by omega) h⟩
  simp [handleData, hm]

/-- Concrete instance of the amended C5: the first chunk of a two-chunk
transfer reports `round(1/2*100) = 50`, which is within `0..100`. -/
theorem C5_witness :
    jsRound (100 * 1) 2 = some 50 ∧ (50 : Nat) ≤ 100 := by
  have h := (C5_amended_progress ⟨some ⟨"a", "b", 2, 2⟩, [], 0⟩ ⟨"a", "b", 2, 2⟩ 0 [9]
    rfl).2 (by decide)
  exact ⟨h.1, h.2⟩

/-- Claim C7: a chunk frame delivered while the receiver is `Idle`
(`metadata = null`) is silently ignored — no callback fires and the state
is unchanged. -/
theorem C7_chunk_while_idle (s : ReceiverState) (hm : s.metadata = none)
    (i : Nat) (d : Bytes) :
    handleData s (InboundData.valid (FileMessage.chunk i d)) = (s, []) := by
  simp [handleData, hm]

/-- Concrete instance of C7: a chunk delivered to the initial state is
dropped with no callbacks. -/
theorem C7_witness :
    handleData initState (InboundData.valid (FileMessage.chunk 0 [1]))
      = (initState, []) :=
  C7_chunk_while_idle initState rfl 0 [1]

theorem handleDataJS_agrees (s : ReceiverState) (m : FileMetadata)
    (h : m.totalChunks < 2 ^ 32) :
    handleDataJS s (InboundData.valid (FileMessage.metadata m))
      = handleData s (InboundData.valid (FileMessage.metadata m)) := by
  simp [handleDataJS, handleData, h]
  omega

/-- Counterexample to claim C8 as stated: a `Metadata` frame declaring
`totalChunks = 2^32` makes `new Array(message.totalChunks)` throw
`RangeError`, so its handling raises and `onError` fires — yet
`this.metadata = message` executed on the previous source line, so the
accumulated state is NOT left unchanged: the prior transfer's metadata is
overwritten while its chunk storage and received-count remain. -/
theorem C8_counterexample :
    handleDataJS ⟨some ⟨"a", "b", 4, 2⟩, [some [1]], 1⟩
        (InboundData.valid (FileMessage.metadata ⟨"c", "d", 0, 4294967296⟩))
      = (⟨some ⟨"c", "d", 0, 4294967296⟩, [some [1]], 1⟩, [RecvEvent.onError])
    ∧ (⟨some ⟨"c", "d", 0, 4294967296⟩, [some [1]], 1⟩ : ReceiverState)
        ≠ (⟨some ⟨"a", "b", 4, 2⟩, [some [1]], 1⟩ : ReceiverState) := by
  constructor
  · decide
  · decide

/-- Claim C8, amended: every inbound frame whose handling raises an
exception makes the receiver invoke `onError` exactly once, and the
listener remains registered, processing all subsequent deliveries exactly
as it would from the resulting state.  A frame that throws before any
mutation (malformed data, where reading `.type` throws) leaves the
accumulated state unchanged; but a `Metadata` frame with
`totalChunks ≥ 2^32` throws `RangeError` only after `this.metadata` has
been assigned, so it leaves `metadata` overwritten while `chunks` and
`receivedChunks` are left stale rather than the state being unchanged. -/
theorem C8_amended_error_isolation (s : ReceiverState) (rest : List InboundData)
    (m : FileMetadata) (hm : 2 ^ 32 ≤ m.totalChunks) :
    handleDataJS s InboundData.malformed = (s, [RecvEvent.onError])
    ∧ runFramesJS s (InboundData.malformed :: rest)
      = ((runFramesJS s rest).1, RecvEvent.onError :: (runFramesJS s rest).2)
    ∧ handleDataJS s (InboundData.valid (FileMessage.metadata m))
      = (⟨some m, s.chunks, s.receivedChunks⟩, [RecvEvent.onError])
    ∧ runFramesJS s (InboundData.valid (FileMessage.metadata m) :: rest)
      = ((runFramesJS ⟨some m, s.chunks, s.receivedChunks⟩ rest).1,
         RecvEvent.onError
           :: (runFramesJS ⟨some m, s.chunks, s.receivedChunks⟩ rest).2) := by
  have hlt : ¬ m.totalChunks < 2 ^ 32 := Nat.not_lt.mpr hm
  have hj : handleDataJS s (InboundData.valid (FileMessage.metadata m))
      = (⟨some m, s.chunks, s.receivedChunks⟩, [RecvEvent.onError]) := by
    simp [handleDataJS, hlt]
    omega
  refine ⟨rfl, ?_, hj, ?_⟩
  · simp [runFramesJS, handleDataJS, handleData]
  · simp [runFramesJS, hj]

/-- Concrete instance of the amended C8: at the idle state, a malformed
frame fires `onError` once and changes nothing, while an oversized
metadata frame (`totalChunks = 2^32`) fires `onError` once and overwrites
`metadata`, leaving `chunks` and `receivedChunks` stale. -/
theorem C8_witness :
    handleDataJS ⟨none, [], 0⟩ InboundData.malformed
      = (⟨none, [], 0⟩, [RecvEvent.onError])
    ∧ handleDataJS ⟨none, [], 0⟩
        (InboundData.valid (FileMessage.metadata ⟨"c", "d", 0, 4294967296⟩))
      = (⟨some ⟨"c", "d", 0, 4294967296⟩, [], 0⟩, [RecvEvent.onError]) := by
  have h := C8_amended_error_isolation ⟨none, [], 0⟩ [] ⟨"c", "d", 0, 4294967296⟩
    (by decide)
  exact ⟨h.1, h.2.2.1⟩

/-- Claim C9: a chunk frame whose index is `≥ totalChunks`, arriving while
`Collecting`, is stored at that index anyway (the sparse array grows),
`received_count` is incremented and `onProgress` fires, with no `onError`;
consequently (closed conjuncts) a transfer declaring `totalChunks = 1` and
`fileSize = 1` that also receives index `1` completes with payload
`[5, 6]`, longer than the declared size. -/
theorem C9_out_of_range_chunk (s : ReceiverState) (m : FileMetadata)
    (i : Nat) (d : Bytes) (hm : s.metadata = some m) (_hi : m.totalChunks ≤ i) :
    handleData s (InboundData.valid (FileMessage.chunk i d))
      = (⟨some m, setSparse s.chunks i d, s.receivedChunks + 1⟩,
         [RecvEvent.onProgress (jsRound (100 * (s.receivedChunks + 1)) m.totalChunks)])
    ∧ (setSparse s.chunks i d).getD i none = some d
    ∧ completePayloads (runFrames initState
          [InboundData.valid (FileMessage.metadata ⟨"n", "t", 1, 1⟩),
           InboundData.valid (FileMessage.chunk 0 [5]),
           InboundData.valid (FileMessage.chunk 1 [6]),
           InboundData.valid FileMessage.complete]).2 = [[5, 6]]
    ∧ (1 : Nat) < ([5, 6] : Bytes).length := by
  refine ⟨?_, getD_setSparse i s.chunks d, by decide, by decide⟩
  simp [handleData, hm]

/-- Concrete instance of C9: with `totalChunks = 1`, the out-of-range index
`1` is stored, extending the chunk array. -/
theorem C9_witness :
    handleData ⟨some ⟨"n", "t", 1, 1⟩, [some [5]], 1⟩
        (InboundData.valid (FileMessage.chunk 1 [6]))
      = (⟨some ⟨"n", "t", 1, 1⟩, [some [5], some [6]], 2⟩,
         [RecvEvent.onProgress (some 200)]) := by
  have h := (C9_out_of_range_chunk ⟨some ⟨"n", "t", 1, 1⟩, [some [5]], 1⟩
    ⟨"n", "t", 1, 1⟩ 1 [6] rfl (by decide)).1
  exact h.trans (by decide)

/-- Claim C10: a `Complete` frame delivered while the receiver is `Idle`
(`metadata = null`) is silently ignored — `onComplete` does not fire, no
other callback fires, and the state is unchanged. -/
theorem C10_complete_while_idle (s : ReceiverState) (hm : s.metadata = none) :
    handleData s (InboundData.valid FileMessage.complete) = (s, []) := by
  simp [handleData, hm]

/-- Concrete instance of C10: `Complete` delivered to the initial state is
dropped with no callbacks. -/
theorem C10_witness :
    handleData initState (InboundData.valid FileMessage.complete) = (initState, []) :=
  C10_complete_while_idle initState rfl
